import Mathlib

/-!
# Verification of the EcoAdvisor response sectioner

A shallow embedding of the string post-processing in `app.py`:
`display_analysis_results` normalizes escaped newlines in the model's
raw reply, splits it into lines, matches each line against the numeric
prefixes of a fixed five-entry section table, and accumulates
(label, body-lines) sections; `main` dispatches the provider's result
to the renderer or to a fallback message.

Python string primitives (`str.strip`, `str.split`, `str.replace`,
`str.startswith`) are modelled on `List Char`; whitespace is the ASCII
whitespace class that `str.strip` removes on the data that occurs here.
-/

namespace EcoAdvisor

/-- The ASCII whitespace characters removed by Python `str.strip()`. -/
def pyIsSpace (c : Char) : Bool :=
  c = ' ' || c = '\t' || c = '\n' || c = '\r' || c = '\x0b' || c = '\x0c'

/-- Remove leading and trailing whitespace from a character list,
as Python `str.strip()`. -/
def stripList (l : List Char) : List Char :=
  ((l.dropWhile pyIsSpace).reverse.dropWhile pyIsSpace).reverse

/-- Python `s.strip()`. -/
def pyStrip (s : String) : String :=
  ⟨stripList s.toList⟩

/-- Python `s.split(sep)` on a single-character separator: keeps empty
pieces, so the result is always non-empty. -/
def splitOnCharList (sep : Char) : List Char → List (List Char)
  | [] => [[]]
  | c :: rest =>
    let r := splitOnCharList sep rest
    if c = sep then [] :: r
    else
      match r with
      | [] => [[c]]
      | h :: t => (c :: h) :: t

/-- Python `s.split('\n')`. -/
def splitLines (s : String) : List String :=
  (splitOnCharList '\n' s.toList).map fun l => ⟨l⟩

/-- One scan of Python `str.replace`: left to right, non-overlapping,
resuming after each replacement.  The fuel argument (instantiated with
the input length) keeps the recursion structural so that the kernel can
evaluate it on literals. -/
def replaceListFuel (pat rep : List Char) : Nat → List Char → List Char
  | 0, s => s
  | _ + 1, [] => []
  | fuel + 1, c :: rest =>
    if pat.isPrefixOf (c :: rest) && !pat.isEmpty then
      rep ++ replaceListFuel pat rep fuel ((c :: rest).drop pat.length)
    else
      c :: replaceListFuel pat rep fuel rest

/-- Python `s.replace(pat, rep)` (for non-empty `pat`). -/
def pyReplace (s pat rep : String) : String :=
  ⟨replaceListFuel pat.toList rep.toList s.toList.length s.toList⟩

/-- Python `s.startswith(pre)`. -/
def pyStartsWith (s pre : String) : Bool :=
  pre.toList.isPrefixOf s.toList

/-- The tail of `l` after the first `'.'`, or `l` itself when there is
no `'.'`: Python `s.split('.', 1)[-1]`. -/
def afterFirstDot (l : List Char) : List Char :=
  match l.dropWhile (fun c => !(c = '.')) with
  | [] => l
  | _ :: t => t

/-- Python `'\n'.join(lst)`. -/
def joinNL : List String → String
  | [] => ""
  | [x] => x
  | x :: xs => x ++ "\n" ++ joinNL xs

/-- One entry of the fixed section table `sections` in
`display_analysis_results`: the full heading text used as dictionary
key, and the display label. -/
structure SpecEntry where
  key : String
  label : String
deriving DecidableEq

/-- `'1. Descrição geral do produto.'` ↦ its display label. -/
def sec1 : SpecEntry :=
  ⟨"1. Descrição geral do produto.", "📝 **Descrição Geral do Produto**"⟩

/-- `'2. Materiais identificáveis na embalagem.'` ↦ its display label. -/
def sec2 : SpecEntry :=
  ⟨"2. Materiais identificáveis na embalagem.", "♻️ **Materiais da Embalagem**"⟩

/-- `'3. Estimativa aproximada da pegada de carbono (em kg CO2).'` ↦ its
display label. -/
def sec3 : SpecEntry :=
  ⟨"3. Estimativa aproximada da pegada de carbono (em kg CO2).", "💨 **Pegada de Carbono Estimada**"⟩

/-- `'4. Instruções de descarte correto no Brasil.'` ↦ its display label. -/
def sec4 : SpecEntry :=
  ⟨"4. Instruções de descarte correto no Brasil.", "🗑️ **Descarte Correto (Brasil)**"⟩

/-- `'5. Sugestões de alternativas ecológicas disponíveis no mercado
nacional.'` ↦ its display label. -/
def sec5 : SpecEntry :=
  ⟨"5. Sugestões de alternativas ecológicas disponíveis no mercado nacional.", "💡 **Alternativas Ecológicas**"⟩

/-- The `sections` dictionary of `display_analysis_results`, in insertion
order (Python dicts iterate in insertion order). -/
def sections : List SpecEntry := [sec1, sec2, sec3, sec4, sec5]

/-- The initial `current_section_title`. -/
def defaultTitle : String := "ℹ️ **Informações Adicionais**"

/-- `key_prompt.split('.')[0] + '.'` — the numeric prefix a line is
tested against. -/
def matchPrefix (e : SpecEntry) : String :=
  ⟨(e.key.toList.takeWhile fun c => !(c = '.')) ++ ['.']⟩

/-- The first table entry (in insertion order) whose prefix the stripped
line starts with — the inner `for key_prompt, title_display in
sections.items()` loop with its `break`. -/
def findMatch (ls : String) : Option SpecEntry :=
  sections.find? fun e => pyStartsWith ls (matchPrefix e)

/-- `line_strip.split('.', 1)[-1].strip() if '.' in line_strip else
line_strip` — the content kept from a heading line. -/
def lineContent (ls : String) : String :=
  if ls.toList.contains '.' then pyStrip ⟨afterFirstDot ls.toList⟩ else ls

/-- The new buffer opened by a matching line: the remainder after the
first period, if non-empty once stripped. -/
def remBuf (ls : String) : List String :=
  if lineContent ls = "" then [] else [lineContent ls]

/-- A section as accumulated by the loop: the display label under which
it is flushed and the buffered content lines (`current_section_content`). -/
structure RawSection where
  label : String
  lines : List String
deriving DecidableEq

/-- A section as the loop flushes it for display:
`st.markdown(f'### {title}')` then
`st.markdown('\n'.join(current_section_content).strip())`. -/
structure RenderedSection where
  label : String
  body : String
deriving DecidableEq

/-- The displayed form of an accumulated section. -/
def render (r : RawSection) : RenderedSection :=
  ⟨r.label, pyStrip (joinNL r.lines)⟩

/-- The line loop of `display_analysis_results`: strip each line, skip
blanks, on a prefix match flush the non-empty buffer under the current
title and open a fresh buffer from the heading remainder, otherwise
append the stripped line to the buffer; after the last line flush the
non-empty buffer. -/
def sectionizeAux : String → List String → List String → List RawSection
  | title, buf, [] => if buf.isEmpty then [] else [⟨title, buf⟩]
  | title, buf, line :: rest =>
    let ls := pyStrip line
    if ls = "" then sectionizeAux title buf rest
    else
      match findMatch ls with
      | some e =>
        (if buf.isEmpty then [] else [⟨title, buf⟩])
          ++ sectionizeAux e.label (remBuf ls) rest
      | none => sectionizeAux title (buf ++ [ls]) rest

/-- Whether any non-blank line matched some prefix (`found_section`).
A blank line never matches, so the blank-skip need not be repeated. -/
def anyMatch (lines : List String) : Bool :=
  lines.any fun l => (findMatch (pyStrip l)).isSome

/-- The escaped-newline normalization: `s.replace('\\\\n', '\n')`
(doubled escape) and then `s.replace('\\n', '\n')` (single escape). -/
def normalize (s : String) : String :=
  pyReplace (pyReplace s "\\\\n" "\n") "\\n" "\n"

/-- The full sectioning pipeline applied to a raw reply: normalize,
split into lines, run the line loop from the default title with an
empty buffer. -/
def sectionsOf (t : String) : List RawSection :=
  sectionizeAux defaultTitle [] (splitLines (normalize t))

/-- What `display_analysis_results` shows after the subheader:
either the no-content warning, or a list of rendered sections together
with the optional raw markdown fallback `st.markdown(s)` taken when
nothing was buffered and no prefix ever matched. -/
inductive RenderResult where
  | noContent : RenderResult
  | rendered : List RenderedSection → Option String → RenderResult
deriving DecidableEq

/-- `display_analysis_results`, as the sequence of render calls it
makes.  Empty or whitespace-only input warns and returns; otherwise the
loop's flushes are shown, and when no section was ever flushed the
normalized text is shown raw unless some prefix matched. -/
def display_analysis_results (analysis_text : String) : RenderResult :=
  if pyStrip analysis_text = "" then .noContent
  else if (sectionizeAux defaultTitle [] (splitLines (normalize analysis_text))).isEmpty then
    if anyMatch (splitLines (normalize analysis_text)) then .rendered [] none
    else .rendered [] (some (normalize analysis_text))
  else
    .rendered ((sectionizeAux defaultTitle [] (splitLines (normalize analysis_text))).map render)
      none

/-- What `main` shows for the provider's result: `if analysis_result:`
dispatches to `display_analysis_results`; `None` and the empty string
are falsy and fall to the `st.info('Não foi possível obter a análise…')`
branch. -/
inductive MainOutcome where
  | analysisShown : RenderResult → MainOutcome
  | infoFallback : MainOutcome
deriving DecidableEq

/-- The dispatch at the end of `main`. -/
def main_dispatch (analysis_result : Option String) : MainOutcome :=
  match analysis_result with
  | none => .infoFallback
  | some r => if r = "" then .infoFallback else .analysisShown (display_analysis_results r)

/-! ## Facts about the Python string primitives -/

theorem dropWhile_dropWhile_eq {α : Type} (p : α → Bool) (l : List α) :
    (l.dropWhile p).dropWhile p = l.dropWhile p := by
  induction l with
  | nil => rfl
  | cons c t ih =>
    cases hpc : p c with
    | true => simpa [List.dropWhile_cons, hpc] using ih
    | false => simp [List.dropWhile_cons, hpc]

theorem dropWhile_eq_nil_of_all {α : Type} (p : α → Bool) (l : List α)
    (h : ∀ c ∈ l, p c = true) : l.dropWhile p = [] := by
  induction l with
  | nil => rfl
  | cons c t ih =>
    have hc := h c (List.mem_cons_self c t)
    simpa [List.dropWhile_cons, hc] using ih fun x hx => h x (List.mem_cons_of_mem c hx)

theorem exists_mem_dropWhile {α : Type} (p : α → Bool) (l : List α)
    (h : ∃ c ∈ l, p c = false) : ∃ c ∈ l.dropWhile p, p c = false := by
  induction l with
  | nil => simp at h
  | cons c t ih =>
    cases hpc : p c with
    | true =>
      obtain ⟨x, hx, hpx⟩ := h
      rcases List.mem_cons.mp hx with rfl | hxt
      · rw [hpc] at hpx; cases hpx
      · simpa [List.dropWhile_cons, hpc] using ih ⟨x, hxt, hpx⟩
    | false => exact ⟨c, by simp [List.dropWhile_cons, hpc]⟩

/-- Removing trailing whitespace: the second half of `stripList`. -/
def rdropSpace (l : List Char) : List Char :=
  (l.reverse.dropWhile pyIsSpace).reverse

theorem stripList_eq_rdropSpace (l : List Char) :
    stripList l = rdropSpace (l.dropWhile pyIsSpace) := rfl

theorem rdropSpace_rdropSpace (l : List Char) :
    rdropSpace (rdropSpace l) = rdropSpace l := by
  unfold rdropSpace
  rw [List.reverse_reverse, dropWhile_dropWhile_eq]

theorem rdropSpace_prefix (l : List Char) : rdropSpace l <+: l := by
  have h : (rdropSpace l).reverse <:+ l.reverse := by
    unfold rdropSpace
    rw [List.reverse_reverse]
    exact List.dropWhile_suffix pyIsSpace
  exact List.reverse_suffix.mp h

theorem dropWhile_length_lt_of_head {α : Type} (p : α → Bool) (c : α) (t : List α)
    (h : p c = true) : ((c :: t).dropWhile p).length < (c :: t).length := by
  rw [List.dropWhile_cons, if_pos h]
  exact Nat.lt_succ_of_le (List.dropWhile_sublist p).length_le

theorem head_not_space_of_dropWhile_eq_self {α : Type} (p : α → Bool) (c : α) (t : List α)
    (h : (c :: t).dropWhile p = c :: t) : p c = false := by
  cases hpc : p c with
  | true =>
    have := dropWhile_length_lt_of_head p c t hpc
    rw [h] at this
    exact absurd this (Nat.lt_irrefl _)
  | false => rfl

theorem dropWhile_rdropSpace_of_dropWhile_eq_self (l : List Char)
    (h : l.dropWhile pyIsSpace = l) :
    (rdropSpace l).dropWhile pyIsSpace = rdropSpace l := by
  cases l with
  | nil => rfl
  | cons c t =>
    have hpc : pyIsSpace c = false := head_not_space_of_dropWhile_eq_self _ c t h
    cases hr : rdropSpace (c :: t) with
    | nil => rfl
    | cons c' t' =>
      have hpre : c' :: t' <+: c :: t := hr ▸ rdropSpace_prefix (c :: t)
      obtain ⟨s, hs⟩ := hpre
      have hc : c' = c := by
        have := congrArg (fun x => x.head?) hs
        simpa using this
      subst hc
      simp [List.dropWhile_cons, hpc]

theorem stripList_idem (l : List Char) : stripList (stripList l) = stripList l := by
  rw [stripList_eq_rdropSpace, stripList_eq_rdropSpace,
    dropWhile_rdropSpace_of_dropWhile_eq_self _ (dropWhile_dropWhile_eq pyIsSpace l),
    rdropSpace_rdropSpace]

theorem pyStrip_idem (s : String) : pyStrip (pyStrip s) = pyStrip s :=
  congrArg String.mk (stripList_idem s.toList)

theorem pyStrip_eq_empty_iff (s : String) : pyStrip s = "" ↔ stripList s.toList = [] := by
  constructor
  · intro h
    exact congrArg String.data h
  · intro h
    show String.mk (stripList s.toList) = ""
    rw [h]

theorem stripList_eq_nil_of_all_space (l : List Char)
    (h : ∀ c ∈ l, pyIsSpace c = true) : stripList l = [] := by
  unfold stripList
  rw [dropWhile_eq_nil_of_all _ _ h]
  rfl

theorem stripList_ne_nil_of_exists (l : List Char)
    (h : ∃ c ∈ l, pyIsSpace c = false) : stripList l ≠ [] := by
  obtain ⟨c, hc, hcs⟩ := exists_mem_dropWhile pyIsSpace l h
  have hc' : c ∈ (l.dropWhile pyIsSpace).reverse := List.mem_reverse.mpr hc
  obtain ⟨c', hc'', hcs'⟩ := exists_mem_dropWhile pyIsSpace _ ⟨c, hc', hcs⟩
  exact List.ne_nil_of_mem (List.mem_reverse.mpr hc'')

theorem exists_not_space_of_stripped (s : String) (hne : s ≠ "")
    (hst : pyStrip s = s) : ∃ c ∈ s.toList, pyIsSpace c = false := by
  by_contra hall
  push_neg at hall
  have hall' : ∀ c ∈ s.toList, pyIsSpace c = true := by
    intro c hc
    have := hall c hc
    simpa using this
  have h0 : stripList s.toList = [] := stripList_eq_nil_of_all_space _ hall'
  have h1 : pyStrip s = "" := by
    show String.mk (stripList s.toList) = ""
    rw [h0]
  rw [hst] at h1
  exact hne h1

/-! ## Step lemmas for the line loop -/

theorem findMatch_empty : findMatch "" = none := by decide

theorem pyStrip_ne_empty_of_findMatch {ls : String} {e : SpecEntry}
    (h : findMatch ls = some e) : ls ≠ "" := by
  intro hls
  rw [hls, findMatch_empty] at h
  cases h

theorem sectionizeAux_nil (title : String) (buf : List String) :
    sectionizeAux title buf [] = if buf.isEmpty then [] else [⟨title, buf⟩] := rfl

theorem sectionizeAux_cons_blank (title : String) (buf : List String)
    (line : String) (rest : List String) (h : pyStrip line = "") :
    sectionizeAux title buf (line :: rest) = sectionizeAux title buf rest := by
  simp [sectionizeAux, h]

theorem sectionizeAux_cons_noMatch {line : String} (title : String) (buf : List String)
    (rest : List String) (h1 : pyStrip line ≠ "")
    (h2 : findMatch (pyStrip line) = none) :
    sectionizeAux title buf (line :: rest)
      = sectionizeAux title (buf ++ [pyStrip line]) rest := by
  simp [sectionizeAux, h1, h2]

theorem sectionizeAux_cons_match {line : String} {e : SpecEntry} (title : String)
    (buf : List String) (rest : List String)
    (h2 : findMatch (pyStrip line) = some e) :
    sectionizeAux title buf (line :: rest)
      = (if buf.isEmpty then [] else [⟨title, buf⟩])
          ++ sectionizeAux e.label (remBuf (pyStrip line)) rest := by
  have h1 : pyStrip line ≠ "" := pyStrip_ne_empty_of_findMatch h2
  simp [sectionizeAux, h1, h2]

/-- The content lines a single input line contributes to the buffers:
nothing for a blank line, its heading remainder for a matching line,
its stripped text otherwise. -/
def contrib (line : String) : List String :=
  if pyStrip line = "" then []
  else
    match findMatch (pyStrip line) with
    | some _ => remBuf (pyStrip line)
    | none => [pyStrip line]

theorem contrib_blank {line : String} (h : pyStrip line = "") : contrib line = [] := by
  simp [contrib, h]

theorem contrib_noMatch {line : String} (h1 : pyStrip line ≠ "")
    (h2 : findMatch (pyStrip line) = none) : contrib line = [pyStrip line] := by
  simp [contrib, h1, h2]

theorem flatMap_contrib_of_blank (b : List String) (hb : ∀ l ∈ b, pyStrip l = "") :
    b.flatMap contrib = [] := by
  induction b with
  | nil => rfl
  | cons l t ih =>
    rw [List.flatMap_cons, contrib_blank (hb l (List.mem_cons_self l t)),
      List.nil_append]
    exact ih fun x hx => hb x (List.mem_cons_of_mem l hx)

theorem flatMap_contrib_ne_nil (b : List String)
    (hb : ∀ l ∈ b, findMatch (pyStrip l) = none)
    (hx : ∃ l ∈ b, pyStrip l ≠ "") : b.flatMap contrib ≠ [] := by
  obtain ⟨l, hl, hlne⟩ := hx
  apply List.ne_nil_of_mem (a := pyStrip l)
  refine List.mem_flatMap.mpr ⟨l, hl, ?_⟩
  rw [contrib_noMatch hlne (hb l hl)]
  exact List.mem_cons_self _ _

/-- Running the loop over a block of lines none of which matches a
prefix just extends the buffer by their contributions. -/
theorem sectionizeAux_noMatch_append (b : List String)
    (hb : ∀ l ∈ b, findMatch (pyStrip l) = none) :
    ∀ (title : String) (buf : List String) (rest : List String),
      sectionizeAux title buf (b ++ rest)
        = sectionizeAux title (buf ++ b.flatMap contrib) rest := by
  induction b with
  | nil => intro title buf rest; simp
  | cons l t ih =>
    intro title buf rest
    have ht : ∀ x ∈ t, findMatch (pyStrip x) = none :=
      fun x hx => hb x (List.mem_cons_of_mem l hx)
    by_cases hl : pyStrip l = ""
    · rw [List.cons_append, sectionizeAux_cons_blank _ _ _ _ hl, ih ht,
        List.flatMap_cons, contrib_blank hl, List.nil_append]
    · rw [List.cons_append,
        sectionizeAux_cons_noMatch _ _ _ hl (hb l (List.mem_cons_self l t)), ih ht,
        List.flatMap_cons, contrib_noMatch hl (hb l (List.mem_cons_self l t)),
        List.append_assoc]

/-- A matching heading followed by a non-matching block: flush the old
buffer, open the new section, and absorb the block. -/
theorem sectionizeAux_segment {h : String} {e : SpecEntry}
    (hm : findMatch (pyStrip h) = some e) (b : List String)
    (hb : ∀ l ∈ b, findMatch (pyStrip l) = none)
    (title : String) (buf : List String) (rest : List String) :
    sectionizeAux title buf (h :: (b ++ rest))
      = (if buf.isEmpty then [] else [⟨title, buf⟩])
          ++ sectionizeAux e.label (remBuf (pyStrip h) ++ b.flatMap contrib) rest := by
  rw [sectionizeAux_cons_match _ _ _ hm, sectionizeAux_noMatch_append b hb]

/-- Content preservation: the concatenation of all flushed buffers is
the initial buffer followed by every line's contribution, in order. -/
theorem sectionizeAux_content :
    ∀ (lines : List String) (title : String) (buf : List String),
      ((sectionizeAux title buf lines).map RawSection.lines).flatten
        = buf ++ lines.flatMap contrib := by
  intro lines
  induction lines with
  | nil =>
    intro title buf
    by_cases h : buf.isEmpty
    · rw [List.isEmpty_iff] at h
      simp [sectionizeAux_nil, h]
    · simp [sectionizeAux_nil, h]
  | cons l t ih =>
    intro title buf
    by_cases hl : pyStrip l = ""
    · rw [sectionizeAux_cons_blank _ _ _ _ hl, ih, List.flatMap_cons,
        contrib_blank hl, List.nil_append]
    · cases hm : findMatch (pyStrip l) with
      | none =>
        rw [sectionizeAux_cons_noMatch _ _ _ hl hm, ih, List.flatMap_cons,
          contrib_noMatch hl hm, List.append_assoc]
      | some e =>
        rw [sectionizeAux_cons_match _ _ _ hm, List.map_append, List.flatten_append,
          ih, List.flatMap_cons]
        have hc : contrib l = remBuf (pyStrip l) := by simp [contrib, hl, hm]
        rw [hc]
        by_cases h : buf.isEmpty
        · rw [List.isEmpty_iff] at h
          simp [h]
        · simp [h]

/-! ## Label order and membership -/

/-- The display labels of the matching lines, in input order. -/
def matchLabels (lines : List String) : List String :=
  lines.filterMap fun l => (findMatch (pyStrip l)).map SpecEntry.label

theorem matchLabels_nil : matchLabels [] = [] := rfl

theorem matchLabels_cons (l : String) (t : List String) :
    matchLabels (l :: t)
      = match findMatch (pyStrip l) with
        | some e => e.label :: matchLabels t
        | none => matchLabels t := by
  cases hm : findMatch (pyStrip l) <;> simp [matchLabels, hm]

/-- Flushed sections appear in match order: their labels form a
sublist of the initial title followed by the matching lines' labels. -/
theorem sectionizeAux_labels_sublist :
    ∀ (lines : List String) (title : String) (buf : List String),
      ((sectionizeAux title buf lines).map RawSection.label).Sublist
        (title :: matchLabels lines) := by
  intro lines
  induction lines with
  | nil =>
    intro title buf
    by_cases h : buf.isEmpty <;> simp [sectionizeAux_nil, h, matchLabels_nil]
  | cons l t ih =>
    intro title buf
    by_cases hl : pyStrip l = ""
    · rw [sectionizeAux_cons_blank _ _ _ _ hl, matchLabels_cons]
      have hm : findMatch (pyStrip l) = none := by rw [hl]; exact findMatch_empty
      rw [hm]
      exact ih title buf
    · cases hm : findMatch (pyStrip l) with
      | none =>
        rw [sectionizeAux_cons_noMatch _ _ _ hl hm, matchLabels_cons, hm]
        exact ih title _
      | some e =>
        rw [sectionizeAux_cons_match _ _ _ hm, matchLabels_cons, hm, List.map_append]
        by_cases h : buf.isEmpty
        · rw [h]
          simp only [if_pos rfl, List.map_nil, List.nil_append]
          exact (ih e.label _).cons title
        · rw [if_neg (by simpa using h)]
          simp only [List.map_cons, List.map_nil, List.singleton_append]
          exact (ih e.label _).cons₂ title

/-- Every flushed section carries the initial title or a label from the
section table. -/
theorem sectionizeAux_label_mem :
    ∀ (lines : List String) (title : String) (buf : List String),
      ∀ sec ∈ sectionizeAux title buf lines,
        sec.label = title ∨ sec.label ∈ sections.map SpecEntry.label := by
  intro lines
  induction lines with
  | nil =>
    intro title buf sec hsec
    rw [sectionizeAux_nil] at hsec
    by_cases h : buf.isEmpty
    · rw [if_pos h] at hsec; cases hsec
    · rw [if_neg h] at hsec
      rcases List.mem_singleton.mp hsec with rfl
      exact Or.inl rfl
  | cons l t ih =>
    intro title buf sec hsec
    by_cases hl : pyStrip l = ""
    · rw [sectionizeAux_cons_blank _ _ _ _ hl] at hsec
      exact ih title buf sec hsec
    · cases hm : findMatch (pyStrip l) with
      | none =>
        rw [sectionizeAux_cons_noMatch _ _ _ hl hm] at hsec
        exact ih title _ sec hsec
      | some e =>
        rw [sectionizeAux_cons_match _ _ _ hm] at hsec
        rcases List.mem_append.mp hsec with hfl | hrec
        · by_cases h : buf.isEmpty
          · rw [if_pos h] at hfl; cases hfl
          · rw [if_neg h] at hfl
            rcases List.mem_singleton.mp hfl with rfl
            exact Or.inl rfl
        · have he : e ∈ sections := List.mem_of_find?_eq_some hm
          rcases ih e.label _ sec hrec with h1 | h1
          · exact Or.inr (h1 ▸ List.mem_map_of_mem SpecEntry.label he)
          · exact Or.inr h1

/-- After the first flushed section every label comes from the table:
the catch-all title can only head the output. -/
theorem sectionizeAux_label_drop :
    ∀ (lines : List String) (title : String) (buf : List String),
      ∀ sec ∈ (sectionizeAux title buf lines).drop 1,
        sec.label ∈ sections.map SpecEntry.label := by
  intro lines
  induction lines with
  | nil =>
    intro title buf sec hsec
    rw [sectionizeAux_nil] at hsec
    by_cases h : buf.isEmpty
    · rw [if_pos h] at hsec; cases hsec
    · rw [if_neg h] at hsec; cases hsec
  | cons l t ih =>
    intro title buf sec hsec
    by_cases hl : pyStrip l = ""
    · rw [sectionizeAux_cons_blank _ _ _ _ hl] at hsec
      exact ih title buf sec hsec
    · cases hm : findMatch (pyStrip l) with
      | none =>
        rw [sectionizeAux_cons_noMatch _ _ _ hl hm] at hsec
        exact ih title _ sec hsec
      | some e =>
        rw [sectionizeAux_cons_match _ _ _ hm] at hsec
        have he : e ∈ sections := List.mem_of_find?_eq_some hm
        have hrec : ∀ x ∈ sectionizeAux e.label (remBuf (pyStrip l)) t,
            x.label ∈ sections.map SpecEntry.label := by
          intro x hx
          rcases sectionizeAux_label_mem t e.label _ x hx with h1 | h1
          · exact h1 ▸ List.mem_map_of_mem SpecEntry.label he
          · exact h1
        by_cases h : buf.isEmpty
        · rw [if_pos h, List.nil_append] at hsec
          exact hrec sec (List.mem_of_mem_drop hsec)
        · rw [if_neg h, List.singleton_append, List.drop_one, List.tail_cons] at hsec
          exact hrec sec hsec

/-- A line the loop may buffer: non-blank and already stripped. -/
def GoodLine (l : String) : Prop := l ≠ "" ∧ pyStrip l = l

theorem goodLine_pyStrip {line : String} (h : pyStrip line ≠ "") :
    GoodLine (pyStrip line) :=
  ⟨h, pyStrip_idem line⟩

theorem lineContent_stripped {ls : String} (h : pyStrip ls = ls) :
    pyStrip (lineContent ls) = lineContent ls := by
  unfold lineContent
  by_cases hd : ls.toList.contains '.'
  · rw [if_pos hd]
    exact pyStrip_idem _
  · rw [if_neg hd]
    exact h

theorem goodLine_mem_remBuf {line : String} {x : String}
    (hx : x ∈ remBuf (pyStrip line)) : GoodLine x := by
  unfold remBuf at hx
  by_cases h : lineContent (pyStrip line) = ""
  · rw [if_pos h] at hx; cases hx
  · rw [if_neg h] at hx
    rcases List.mem_singleton.mp hx with rfl
    exact ⟨h, lineContent_stripped (pyStrip_idem line)⟩

/-- Every flushed section is non-empty and holds only non-blank,
stripped lines (given the same of the initial buffer). -/
theorem sectionizeAux_lines_good :
    ∀ (lines : List String) (title : String) (buf : List String),
      (∀ l ∈ buf, GoodLine l) →
      ∀ sec ∈ sectionizeAux title buf lines,
        sec.lines ≠ [] ∧ ∀ l ∈ sec.lines, GoodLine l := by
  intro lines
  induction lines with
  | nil =>
    intro title buf hbuf sec hsec
    rw [sectionizeAux_nil] at hsec
    by_cases h : buf.isEmpty
    · rw [if_pos h] at hsec; cases hsec
    · rw [if_neg h] at hsec
      rcases List.mem_singleton.mp hsec with rfl
      exact ⟨by simpa [List.isEmpty_iff] using h, hbuf⟩
  | cons l t ih =>
    intro title buf hbuf sec hsec
    by_cases hl : pyStrip l = ""
    · rw [sectionizeAux_cons_blank _ _ _ _ hl] at hsec
      exact ih title buf hbuf sec hsec
    · cases hm : findMatch (pyStrip l) with
      | none =>
        rw [sectionizeAux_cons_noMatch _ _ _ hl hm] at hsec
        refine ih title _ ?_ sec hsec
        intro x hx
        rcases List.mem_append.mp hx with hx1 | hx1
        · exact hbuf x hx1
        · rcases List.mem_singleton.mp hx1 with rfl
          exact goodLine_pyStrip hl
      | some e =>
        rw [sectionizeAux_cons_match _ _ _ hm] at hsec
        rcases List.mem_append.mp hsec with hfl | hrec
        · by_cases h : buf.isEmpty
          · rw [if_pos h] at hfl; cases hfl
          · rw [if_neg h] at hfl
            rcases List.mem_singleton.mp hfl with rfl
            exact ⟨by simpa [List.isEmpty_iff] using h, hbuf⟩
        · exact ih e.label _ (fun x hx => goodLine_mem_remBuf hx) sec hrec

/-! ## Joining buffers and unfolding the display -/

theorem joinNL_cons_cons (a b : String) (t : List String) :
    joinNL (a :: b :: t) = a ++ "\n" ++ joinNL (b :: t) := rfl

theorem toList_joinNL_cons (a : String) (rest : List String) :
    ∃ suffix, (joinNL (a :: rest)).toList = a.toList ++ suffix := by
  cases rest with
  | nil => exact ⟨[], by simp [joinNL]⟩
  | cons b t =>
    refine ⟨'\n' :: (joinNL (b :: t)).toList, ?_⟩
    rw [joinNL_cons_cons]
    show (a ++ "\n" ++ joinNL (b :: t)).data = a.data ++ '\n' :: (joinNL (b :: t)).data
    rw [String.data_append, String.data_append, List.append_assoc]
    rfl

theorem pyStrip_joinNL_ne_empty (lines : List String) (hne : lines ≠ [])
    (hg : ∀ l ∈ lines, GoodLine l) : pyStrip (joinNL lines) ≠ "" := by
  cases lines with
  | nil => exact absurd rfl hne
  | cons a rest =>
    have hga := hg a (List.mem_cons_self a rest)
    obtain ⟨c, hc, hcs⟩ := exists_not_space_of_stripped a hga.1 hga.2
    have hmem : c ∈ (joinNL (a :: rest)).toList := by
      obtain ⟨suffix, hs⟩ := toList_joinNL_cons a rest
      rw [hs]
      exact List.mem_append_left _ hc
    intro hcontra
    exact stripList_ne_nil_of_exists _ ⟨c, hmem, hcs⟩
      ((pyStrip_eq_empty_iff _).mp hcontra)

theorem display_eq_rendered (t : String) (h : pyStrip t ≠ "")
    (h2 : sectionsOf t ≠ []) :
    display_analysis_results t
      = RenderResult.rendered ((sectionsOf t).map render) none := by
  unfold display_analysis_results
  rw [if_neg h, if_neg (by simpa [List.isEmpty_iff] using h2)]
  rfl

/-! ## Segment-chaining corollaries -/

theorem sectionizeAux_segment_nilBuf {hd : String} {e : SpecEntry}
    (hm : findMatch (pyStrip hd) = some e) (b : List String)
    (hb : ∀ l ∈ b, findMatch (pyStrip l) = none)
    (title : String) (rest : List String) :
    sectionizeAux title [] (hd :: (b ++ rest))
      = sectionizeAux e.label (remBuf (pyStrip hd) ++ b.flatMap contrib) rest := by
  rw [sectionizeAux_segment hm b hb]
  simp

theorem sectionizeAux_segment_consBuf {hd : String} {e : SpecEntry}
    (hm : findMatch (pyStrip hd) = some e) (b : List String)
    (hb : ∀ l ∈ b, findMatch (pyStrip l) = none)
    (title : String) (buf : List String) (hbuf : buf ≠ []) (rest : List String) :
    sectionizeAux title buf (hd :: (b ++ rest))
      = ⟨title, buf⟩
          :: sectionizeAux e.label (remBuf (pyStrip hd) ++ b.flatMap contrib) rest := by
  rw [sectionizeAux_segment hm b hb, if_neg (by simpa [List.isEmpty_iff] using hbuf),
    List.singleton_append]

theorem sectionizeAux_final (b : List String)
    (hb : ∀ l ∈ b, findMatch (pyStrip l) = none)
    (title : String) (buf : List String) (hbuf : buf ++ b.flatMap contrib ≠ []) :
    sectionizeAux title buf b = [⟨title, buf ++ b.flatMap contrib⟩] := by
  conv_lhs => rw [← List.append_nil b]
  rw [sectionizeAux_noMatch_append b hb, sectionizeAux_nil,
    if_neg (by simpa [List.isEmpty_iff] using hbuf)]

/-! ## Prefix matching is decided by the leading digit -/

theorem head_cons_of_pyStartsWith {s q : String} {b : Char} {qt : List Char}
    (hq : q.toList = b :: qt) (h : pyStartsWith s q = true) :
    ∃ t, s.toList = b :: t := by
  unfold pyStartsWith at h
  rw [hq] at h
  obtain ⟨r, hr⟩ := List.isPrefixOf_iff_prefix.mp h
  exact ⟨qt ++ r, by rw [← hr]; rfl⟩

theorem pyStartsWith_eq_false_of_head {s q : String} {a b : Char} {st qt : List Char}
    (hs : s.toList = a :: st) (hq : q.toList = b :: qt) (hne : ¬b = a) :
    pyStartsWith s q = false := by
  unfold pyStartsWith
  rw [hq, hs]
  show (b == a && List.isPrefixOf qt st) = false
  rw [beq_eq_false_iff_ne.mpr hne, Bool.false_and]

/-- A line starting with some entry's numeric prefix is claimed by that
entry: the five prefixes have distinct leading digits, so the first
match in table order is the only match. -/
theorem findMatch_of_startsWith {ls : String} {e : SpecEntry} (he : e ∈ sections)
    (h : pyStartsWith ls (matchPrefix e) = true) : findMatch ls = some e := by
  have hmem : e = sec1 ∨ e = sec2 ∨ e = sec3 ∨ e = sec4 ∨ e = sec5 := by
    simpa [sections] using he
  unfold findMatch sections
  rcases hmem with rfl | rfl | rfl | rfl | rfl
  · exact List.find?_cons_of_pos _ h
  · obtain ⟨t, ht⟩ := head_cons_of_pyStartsWith (by decide : (matchPrefix sec2).toList = '2' :: ['.']) h
    rw [List.find?_cons_of_neg _ (by
      rw [pyStartsWith_eq_false_of_head ht (by decide : (matchPrefix sec1).toList = '1' :: ['.']) (by decide)]
      simp)]
    exact List.find?_cons_of_pos _ h
  · obtain ⟨t, ht⟩ := head_cons_of_pyStartsWith (by decide : (matchPrefix sec3).toList = '3' :: ['.']) h
    rw [List.find?_cons_of_neg _ (by
      rw [pyStartsWith_eq_false_of_head ht (by decide : (matchPrefix sec1).toList = '1' :: ['.']) (by decide)]
      simp)]
    rw [List.find?_cons_of_neg _ (by
      rw [pyStartsWith_eq_false_of_head ht (by decide : (matchPrefix sec2).toList = '2' :: ['.']) (by decide)]
      simp)]
    exact List.find?_cons_of_pos _ h
  · obtain ⟨t, ht⟩ := head_cons_of_pyStartsWith (by decide : (matchPrefix sec4).toList = '4' :: ['.']) h
    rw [List.find?_cons_of_neg _ (by
      rw [pyStartsWith_eq_false_of_head ht (by decide : (matchPrefix sec1).toList = '1' :: ['.']) (by decide)]
      simp)]
    rw [List.find?_cons_of_neg _ (by
      rw [pyStartsWith_eq_false_of_head ht (by decide : (matchPrefix sec2).toList = '2' :: ['.']) (by decide)]
      simp)]
    rw [List.find?_cons_of_neg _ (by
      rw [pyStartsWith_eq_false_of_head ht (by decide : (matchPrefix sec3).toList = '3' :: ['.']) (by decide)]
      simp)]
    exact List.find?_cons_of_pos _ h
  · obtain ⟨t, ht⟩ := head_cons_of_pyStartsWith (by decide : (matchPrefix sec5).toList = '5' :: ['.']) h
    rw [List.find?_cons_of_neg _ (by
      rw [pyStartsWith_eq_false_of_head ht (by decide : (matchPrefix sec1).toList = '1' :: ['.']) (by decide)]
      simp)]
    rw [List.find?_cons_of_neg _ (by
      rw [pyStartsWith_eq_false_of_head ht (by decide : (matchPrefix sec2).toList = '2' :: ['.']) (by decide)]
      simp)]
    rw [List.find?_cons_of_neg _ (by
      rw [pyStartsWith_eq_false_of_head ht (by decide : (matchPrefix sec3).toList = '3' :: ['.']) (by decide)]
      simp)]
    rw [List.find?_cons_of_neg _ (by
      rw [pyStartsWith_eq_false_of_head ht (by decide : (matchPrefix sec4).toList = '4' :: ['.']) (by decide)]
      simp)]
    exact List.find?_cons_of_pos _ h

/-! ## The claims -/

/-- C3: normalization collapses doubled backslash-n escapes to real
line breaks before single ones, so the input
`"A\\\\nB\\nC"` (backslash-backslash-n, then backslash-n) normalizes to
exactly the three real lines `A`, `B`, `C`, with no half-converted
residue. -/
theorem claim_C3 :
    normalize "A\\\\nB\\nC" = "A\nB\nC"
      ∧ splitLines (normalize "A\\\\nB\\nC") = ["A", "B", "C"] :=
  ⟨by decide, by decide⟩

/-- C5: an input that is empty or only whitespace makes
`display_analysis_results` warn and return: no sections are rendered
and the caller sees the no-content outcome.  The model is a total
function, so no exception is possible. -/
theorem claim_C5 (t : String) (h : pyStrip t = "") :
    display_analysis_results t = RenderResult.noContent := by
  unfold display_analysis_results
  rw [if_pos h]

/-- Witness for C5 at the whitespace-only input `"  "`. -/
theorem claim_C5_witness :
    pyStrip "  " = "" ∧ display_analysis_results "  " = RenderResult.noContent :=
  ⟨by decide, claim_C5 "  " (by decide)⟩

/-- C6 fails as stated: when the provider returns the *empty* string,
`main` takes the same falsy branch as a failed analysis
(`st.info('Não foi possível obter a análise…')`), so the result is not
reported as "no content returned". -/
theorem claim_C6_counterexample :
    main_dispatch (some "") = MainOutcome.infoFallback
      ∧ main_dispatch none = MainOutcome.infoFallback
      ∧ main_dispatch (some "") ≠ MainOutcome.analysisShown RenderResult.noContent :=
  ⟨rfl, rfl, by decide⟩

/-- C6 amended: whenever the provider returns non-empty but
whitespace-only text, `main` dispatches to the renderer, which reports
the no-content warning — an outcome distinct from the fallback taken
for failed analyses; the exactly-empty string instead falls into the
same branch as a failure. -/
theorem claim_C6_amended (r : String) (h1 : pyStrip r = "") (h2 : r ≠ "") :
    main_dispatch (some r) = MainOutcome.analysisShown RenderResult.noContent
      ∧ main_dispatch (some r) ≠ main_dispatch none := by
  have hd : display_analysis_results r = RenderResult.noContent := by
    unfold display_analysis_results
    rw [if_pos h1]
  simp only [main_dispatch]
  rw [if_neg h2, hd]
  exact ⟨rfl, fun hc => MainOutcome.noConfusion hc⟩

/-- Witness for the amended C6 at the blank-but-non-empty reply `" "`. -/
theorem claim_C6_witness :
    (pyStrip " " = "" ∧ " " ≠ "")
      ∧ main_dispatch (some " ") = MainOutcome.analysisShown RenderResult.noContent
      ∧ main_dispatch (some " ") ≠ main_dispatch none :=
  ⟨⟨by decide, by decide⟩, claim_C6_amended " " (by decide) (by decide)⟩

/-- C7: the bare heading line `"3."` flushes any pending buffer,
switches the current section to entry 3 with an *empty* initial buffer
(`remBuf (pyStrip "3.") = []`), and a following non-matching content
line becomes that section's first buffered line. -/
theorem claim_C7 (title : String) (buf : List String) (c : String)
    (rest : List String) (hc : pyStrip c ≠ "")
    (hm : findMatch (pyStrip c) = none) :
    sectionizeAux title buf ("3." :: c :: rest)
      = (if buf.isEmpty then [] else [⟨title, buf⟩])
          ++ sectionizeAux sec3.label [pyStrip c] rest := by
  rw [sectionizeAux_cons_match _ _ _ (by decide : findMatch (pyStrip "3.") = some sec3),
    (by decide : remBuf (pyStrip "3.") = []),
    sectionizeAux_cons_noMatch _ _ _ hc hm, List.nil_append]

/-- Witness for C7: `"3."` then `"body"`. -/
theorem claim_C7_witness :
    (pyStrip "body" ≠ "" ∧ findMatch (pyStrip "body") = none)
      ∧ sectionizeAux defaultTitle [] ("3." :: "body" :: [])
          = (if ([] : List String).isEmpty then [] else [⟨defaultTitle, []⟩])
              ++ sectionizeAux sec3.label [pyStrip "body"] [] :=
  ⟨⟨by decide, by decide⟩, claim_C7 defaultTitle [] "body" [] (by decide) (by decide)⟩

/-- C8: two lines matching the same table entry produce two separate
sections under the same display label: the second occurrence flushes
the first section's buffer and re-opens a fresh one, with no merging. -/
theorem claim_C8 (l1 l2 : String) (e : SpecEntry)
    (hm1 : findMatch (pyStrip l1) = some e) (hm2 : findMatch (pyStrip l2) = some e)
    (hr1 : remBuf (pyStrip l1) ≠ []) (hr2 : remBuf (pyStrip l2) ≠ []) :
    sectionizeAux defaultTitle [] [l1, l2]
      = [⟨e.label, remBuf (pyStrip l1)⟩, ⟨e.label, remBuf (pyStrip l2)⟩] := by
  rw [sectionizeAux_cons_match _ _ _ hm1]
  simp only [List.isEmpty_nil, if_pos, List.nil_append]
  rw [sectionizeAux_cons_match _ _ _ hm2,
    if_neg (by simpa [List.isEmpty_iff] using hr1), sectionizeAux_nil,
    if_neg (by simpa [List.isEmpty_iff] using hr2), List.singleton_append]

/-- Witness for C8: the prefix `"2."` occurring twice gives two
sections labelled with entry 2's display label. -/
theorem claim_C8_witness :
    (findMatch (pyStrip "2. a") = some sec2 ∧ findMatch (pyStrip "2. b") = some sec2
      ∧ remBuf (pyStrip "2. a") ≠ [] ∧ remBuf (pyStrip "2. b") ≠ [])
      ∧ sectionizeAux defaultTitle [] ["2. a", "2. b"]
          = [⟨sec2.label, remBuf (pyStrip "2. a")⟩, ⟨sec2.label, remBuf (pyStrip "2. b")⟩] :=
  ⟨⟨by decide, by decide, by decide, by decide⟩,
    claim_C8 "2. a" "2. b" sec2 (by decide) (by decide) (by decide) (by decide)⟩

/-- C9: matching only tests whether the stripped line starts with an
entry's digit-plus-period, ignoring the rest — so any line whose
trimmed form begins with `"1."` … `"5."`, body text like
`"1.5 kg CO2"` included, flushes the current buffer, switches the
current label to that entry's label, and keeps only the (stripped)
text after the first period as content. -/
theorem claim_C9 (e : SpecEntry) (he : e ∈ sections) (ls : String)
    (hpre : pyStartsWith (pyStrip ls) (matchPrefix e) = true)
    (title : String) (buf : List String) (rest : List String) :
    findMatch (pyStrip ls) = some e
      ∧ sectionizeAux title buf (ls :: rest)
          = (if buf.isEmpty then [] else [⟨title, buf⟩])
              ++ sectionizeAux e.label (remBuf (pyStrip ls)) rest := by
  have hm : findMatch (pyStrip ls) = some e :=
    findMatch_of_startsWith he (by simpa [pyStrip_idem] using hpre)
  exact ⟨hm, sectionizeAux_cons_match _ _ _ hm⟩

/-- Witness for C9 at the body-text line `"1.5 kg CO2"`: it is captured
by entry 1, and the content kept is `"5 kg CO2"`. -/
theorem claim_C9_witness :
    (sec1 ∈ sections ∧ pyStartsWith (pyStrip "1.5 kg CO2") (matchPrefix sec1) = true
      ∧ remBuf (pyStrip "1.5 kg CO2") = ["5 kg CO2"])
      ∧ findMatch (pyStrip "1.5 kg CO2") = some sec1
      ∧ sectionizeAux defaultTitle ["old"] ("1.5 kg CO2" :: [])
          = (if (["old"] : List String).isEmpty then [] else [⟨defaultTitle, ["old"]⟩])
              ++ sectionizeAux sec1.label (remBuf (pyStrip "1.5 kg CO2")) [] :=
  ⟨⟨by decide, by decide, by decide⟩,
    claim_C9 sec1 (by decide) "1.5 kg CO2" (by decide) defaultTitle ["old"] []⟩

/-- C10: every section flushed by the loop has a non-empty buffer whose
lines are all non-blank and stripped, and its rendered body is
non-empty after trimming; a section whose buffer is empty at the next
heading or at end of input is never emitted. -/
theorem claim_C10 (t : String) (sec : RawSection) (h : sec ∈ sectionsOf t) :
    sec.lines ≠ [] ∧ (∀ l ∈ sec.lines, l ≠ "" ∧ pyStrip l = l)
      ∧ (render sec).body ≠ "" := by
  have hg := sectionizeAux_lines_good (splitLines (normalize t)) defaultTitle []
    (by intro l hl; cases hl) sec h
  exact ⟨hg.1, hg.2, pyStrip_joinNL_ne_empty sec.lines hg.1 hg.2⟩

/-- Witness for C10 at the input `"1. a"` and its single section. -/
theorem claim_C10_witness :
    (⟨sec1.label, ["a"]⟩ : RawSection) ∈ sectionsOf "1. a"
      ∧ ((⟨sec1.label, ["a"]⟩ : RawSection).lines ≠ []
          ∧ (∀ l ∈ (⟨sec1.label, ["a"]⟩ : RawSection).lines, l ≠ "" ∧ pyStrip l = l)
          ∧ (render (⟨sec1.label, ["a"]⟩ : RawSection)).body ≠ "") :=
  ⟨by decide, claim_C10 "1. a" ⟨sec1.label, ["a"]⟩ (by decide)⟩

/-- C4 fails as stated: the body of the single catch-all section is the
normalized text's non-blank lines each trimmed and re-joined — not the
entire normalized text.  At `" x"` (no heading anywhere) the section's
body is `"x"` while the normalized text is `" x"`. -/
theorem claim_C4_counterexample :
    display_analysis_results " x"
        = RenderResult.rendered [⟨defaultTitle, "x"⟩] none
      ∧ normalize " x" = " x"
      ∧ ("x" : String) ≠ " x" :=
  ⟨by decide, by decide, by decide⟩

/-- C4 amended: a non-whitespace input none of whose normalized lines
matches any prefix yields exactly one section under the default label,
whose body is the normalized text's non-blank lines, each stripped,
joined by real line breaks (and then stripped once more) — provided at
least one normalized line is non-blank.  (When normalization leaves
only blank lines, the code instead emits the raw normalized string
with no section at all.) -/
theorem claim_C4_amended (t : String) (h1 : pyStrip t ≠ "")
    (h2 : ∀ l ∈ splitLines (normalize t), findMatch (pyStrip l) = none)
    (h3 : ∃ l ∈ splitLines (normalize t), pyStrip l ≠ "") :
    display_analysis_results t
      = RenderResult.rendered
          [⟨defaultTitle,
            pyStrip (joinNL ((splitLines (normalize t)).flatMap contrib))⟩] none := by
  have hsec : sectionsOf t
      = [⟨defaultTitle, (splitLines (normalize t)).flatMap contrib⟩] := by
    unfold sectionsOf
    exact sectionizeAux_final _ h2 _ []
      (by simpa using flatMap_contrib_ne_nil _ h2 h3)
  rw [display_eq_rendered t h1 (by rw [hsec]; exact List.cons_ne_nil _ _), hsec]
  rfl

/-- Witness for the amended C4 at `" x\ny "`: one catch-all section
with body `"x\ny"`. -/
theorem claim_C4_witness :
    (pyStrip " x\ny " ≠ ""
      ∧ (∀ l ∈ splitLines (normalize " x\ny "), findMatch (pyStrip l) = none)
      ∧ (∃ l ∈ splitLines (normalize " x\ny "), pyStrip l ≠ ""))
      ∧ display_analysis_results " x\ny "
          = RenderResult.rendered
              [⟨defaultTitle,
                pyStrip (joinNL ((splitLines (normalize " x\ny ")).flatMap contrib))⟩]
              none :=
  ⟨⟨by decide, by decide, by decide⟩,
    claim_C4_amended " x\ny " (by decide) (by decide) (by decide)⟩

/-- C2: (i) the concatenation of all section buffers is exactly the
per-line contributions of the normalized input, in order — every
non-blank line's content lands in exactly one section; (ii) section
labels follow first-occurrence match order: they form a sublist of the
default title followed by the matching lines' labels in input order;
(iii) the catch-all label can only label the first section; (iv) when
non-blank unmatched content precedes the first matching line, the
catch-all section holding exactly that content heads the output. -/
theorem claim_C2 (t : String) :
    ((sectionsOf t).map RawSection.lines).flatten
        = (splitLines (normalize t)).flatMap contrib
      ∧ List.Sublist ((sectionsOf t).map RawSection.label)
          (defaultTitle :: matchLabels (splitLines (normalize t)))
      ∧ (∀ sec ∈ (sectionsOf t).drop 1, sec.label ≠ defaultTitle)
      ∧ (∀ (pre : List String) (m : String) (rest : List String) (e : SpecEntry),
          splitLines (normalize t) = pre ++ m :: rest →
          (∀ l ∈ pre, findMatch (pyStrip l) = none) →
          (∃ l ∈ pre, pyStrip l ≠ "") →
          findMatch (pyStrip m) = some e →
          ∃ tl, sectionsOf t = ⟨defaultTitle, pre.flatMap contrib⟩ :: tl) := by
  refine ⟨?_, ?_, ?_, ?_⟩
  · simpa using sectionizeAux_content (splitLines (normalize t)) defaultTitle []
  · exact sectionizeAux_labels_sublist (splitLines (normalize t)) defaultTitle []
  · intro sec hsec
    have hmem := sectionizeAux_label_drop (splitLines (normalize t)) defaultTitle [] sec hsec
    have hne : ∀ x ∈ sections.map SpecEntry.label, x ≠ defaultTitle := by decide
    exact hne _ hmem
  · intro pre m rest e hsplit hpre hex hm
    unfold sectionsOf
    rw [hsplit, sectionizeAux_noMatch_append pre hpre, List.nil_append,
      sectionizeAux_cons_match _ _ _ hm,
      if_neg (by simpa [List.isEmpty_iff] using flatMap_contrib_ne_nil pre hpre hex),
      List.singleton_append]
    exact ⟨_, rfl⟩

/-- Witness for C2's conditional part at `"hello\n1. a"`: the catch-all
section holding `"hello"` heads the output. -/
theorem claim_C2_witness :
    ∃ tl, sectionsOf "hello\n1. a"
      = ⟨defaultTitle, (["hello"] : List String).flatMap contrib⟩ :: tl :=
  (claim_C2 "hello\n1. a").2.2.2 ["hello"] "1. a" [] sec1
    (by decide) (by decide) (by decide) (by decide)

/-- A block of body lines: none matches a prefix, at least one is
non-blank. -/
def BodyBlock (b : List String) : Prop :=
  (∀ l ∈ b, findMatch (pyStrip l) = none) ∧ ∃ l ∈ b, pyStrip l ≠ ""

/-- A well-formed five-section reply: after normalization its lines are
an all-blank prefix, then for each table entry in order a heading line
matching that entry followed by a body block. -/
def WellFormedFive (t : String) : Prop :=
  pyStrip t ≠ "" ∧
  ∃ b0 g1 b1 g2 b2 g3 b3 g4 b4 g5 b5,
    splitLines (normalize t)
      = b0 ++ g1 :: (b1 ++ g2 :: (b2 ++ g3 :: (b3 ++ g4 :: (b4 ++ g5 :: b5))))
    ∧ (∀ l ∈ b0, pyStrip l = "")
    ∧ findMatch (pyStrip g1) = some sec1 ∧ BodyBlock b1
    ∧ findMatch (pyStrip g2) = some sec2 ∧ BodyBlock b2
    ∧ findMatch (pyStrip g3) = some sec3 ∧ BodyBlock b3
    ∧ findMatch (pyStrip g4) = some sec4 ∧ BodyBlock b4
    ∧ findMatch (pyStrip g5) = some sec5 ∧ BodyBlock b5

/-- C1: a well-formed five-section input renders exactly five sections,
in heading order 1..5, labelled with the table's display labels. -/
theorem claim_C1 (t : String) (h : WellFormedFive t) :
    ∃ secs, display_analysis_results t = RenderResult.rendered secs none
      ∧ secs.map RenderedSection.label = sections.map SpecEntry.label := by
  obtain ⟨ht, b0, g1, b1, g2, b2, g3, b3, g4, b4, g5, b5, hsplit, hb0,
    hm1, hB1, hm2, hB2, hm3, hB3, hm4, hB4, hm5, hB5⟩ := h
  have hblank : ∀ l ∈ b0, findMatch (pyStrip l) = none := by
    intro l hl
    rw [hb0 l hl]
    exact findMatch_empty
  have hne1 : remBuf (pyStrip g1) ++ b1.flatMap contrib ≠ [] :=
    List.append_ne_nil_of_right_ne_nil _ (flatMap_contrib_ne_nil b1 hB1.1 hB1.2)
  have hne2 : remBuf (pyStrip g2) ++ b2.flatMap contrib ≠ [] :=
    List.append_ne_nil_of_right_ne_nil _ (flatMap_contrib_ne_nil b2 hB2.1 hB2.2)
  have hne3 : remBuf (pyStrip g3) ++ b3.flatMap contrib ≠ [] :=
    List.append_ne_nil_of_right_ne_nil _ (flatMap_contrib_ne_nil b3 hB3.1 hB3.2)
  have hne4 : remBuf (pyStrip g4) ++ b4.flatMap contrib ≠ [] :=
    List.append_ne_nil_of_right_ne_nil _ (flatMap_contrib_ne_nil b4 hB4.1 hB4.2)
  have hne5 : remBuf (pyStrip g5) ++ b5.flatMap contrib ≠ [] :=
    List.append_ne_nil_of_right_ne_nil _ (flatMap_contrib_ne_nil b5 hB5.1 hB5.2)
  have hsec : sectionsOf t
      = [⟨sec1.label, remBuf (pyStrip g1) ++ b1.flatMap contrib⟩,
         ⟨sec2.label, remBuf (pyStrip g2) ++ b2.flatMap contrib⟩,
         ⟨sec3.label, remBuf (pyStrip g3) ++ b3.flatMap contrib⟩,
         ⟨sec4.label, remBuf (pyStrip g4) ++ b4.flatMap contrib⟩,
         ⟨sec5.label, remBuf (pyStrip g5) ++ b5.flatMap contrib⟩] := by
    unfold sectionsOf
    rw [hsplit, sectionizeAux_noMatch_append b0 hblank,
      flatMap_contrib_of_blank b0 hb0, List.append_nil,
      sectionizeAux_segment_nilBuf hm1 b1 hB1.1,
      sectionizeAux_segment_consBuf hm2 b2 hB2.1 _ _ hne1,
      sectionizeAux_segment_consBuf hm3 b3 hB3.1 _ _ hne2,
      sectionizeAux_segment_consBuf hm4 b4 hB4.1 _ _ hne3,
      sectionizeAux_cons_match _ _ _ hm5,
      if_neg (by simpa [List.isEmpty_iff] using hne4),
      sectionizeAux_final b5 hB5.1 _ _ hne5, List.singleton_append]
  rw [display_eq_rendered t ht (by rw [hsec]; exact List.cons_ne_nil _ _), hsec]
  exact ⟨_, rfl, rfl⟩

/-- Witness for C1 at a concrete well-formed five-section reply. -/
theorem claim_C1_witness :
    ∃ secs,
      display_analysis_results "1. a\nx\n2. b\nx\n3. c\nx\n4. d\nx\n5. e\nx"
          = RenderResult.rendered secs none
        ∧ secs.map RenderedSection.label = sections.map SpecEntry.label :=
  claim_C1 _ ⟨by decide,
    [], "1. a", ["x"], "2. b", ["x"], "3. c", ["x"], "4. d", ["x"], "5. e", ["x"],
    by decide, by decide, by decide, ⟨by decide, by decide⟩, by decide,
    ⟨by decide, by decide⟩, by decide, ⟨by decide, by decide⟩, by decide,
    ⟨by decide, by decide⟩, by decide, ⟨by decide, by decide⟩⟩

end EcoAdvisor
